import Mathlib

/-!
Shallow embedding of the NeuraTable backend (Rust) in Lean 4, together with
theorems settling the specification claims about it.

Conventions of the embedding:
* Rust `usize` values are modelled as `ℕ`.  Subtraction and division that can
  panic (underflow / division by zero) are modelled explicitly: either the
  operation is guarded by the same condition the surrounding code establishes,
  or the function returns an `Option` / a dedicated outcome type with a
  distinguished value for the panic.
* Rust `f32` arithmetic is idealised over `ℚ` (exact arithmetic, no rounding);
  division by zero is therefore `0` in the model where the code would produce
  `NaN`/`inf`.
* Tensors are modelled by their extents together with, where the values
  matter, a total function from coordinates to `ℚ`.
-/

namespace NeuraTable

/-! ## ChunkSize (src/backend/src/chunksize.rs)

`width`/`height` pair.  The Rust helpers subtract with `usize` arithmetic,
which panics on underflow (in builds with overflow checks); the panic is
modelled by returning `none`. -/

structure ChunkSize where
  width : ℕ
  height : ℕ
deriving DecidableEq, Repr

namespace ChunkSize

/-- Rust `ChunkSize::remaining_area_after_padding`: `(h - 2p, w - 2p)`.
The two `usize` subtractions underflow (panic) unless `2*padding` is at most
each extent; the panic is modelled as `none`. -/
def remaining_area_after_padding (cs : ChunkSize) (padding : ℕ) : Option ChunkSize :=
  if 2 * padding ≤ cs.height ∧ 2 * padding ≤ cs.width then
    some { height := cs.height - 2 * padding, width := cs.width - 2 * padding }
  else
    none

/-- Rust `ChunkSize::stepsize_with_overlap`: `(h - o, w - o)`, with the `usize`
underflow panic modelled as `none`. -/
def stepsize_with_overlap (cs : ChunkSize) (overlap : ℕ) : Option ChunkSize :=
  if overlap ≤ cs.height ∧ overlap ≤ cs.width then
    some { height := cs.height - overlap, width := cs.width - overlap }
  else
    none

end ChunkSize

/-! ## ModelValueRange (src/backend/src/model_value_range.rs)

The arithmetic maps between the `u16` pixel domain and the model's numeric
domain, idealised over `ℚ`. -/

inductive ModelValueMode where
  | Symmetric
  | Asymmetric
deriving DecidableEq, Repr

structure ModelValueRange where
  value_mode : ModelValueMode
  max_abs_value : ℚ
deriving DecidableEq, Repr

namespace ModelValueRange

/-- Rust `ModelValueRange::symmetric` -/
def symmetric (max_abs_value : ℚ) : ModelValueRange :=
  { value_mode := .Symmetric, max_abs_value := max_abs_value }

/-- Rust `ModelValueRange::asymmetric` -/
def asymmetric (max_abs_value : ℚ) : ModelValueRange :=
  { value_mode := .Asymmetric, max_abs_value := max_abs_value }

/-- Rust `ModelValueRange::pixel_value_to_model`: `((pixel/65535) * max)`; for the
symmetric mode additionally `* 2 - max`.  `u16::MAX = 65535`. -/
def pixel_value_to_model (r : ModelValueRange) (pixel_value : ℕ) : ℚ :=
  let asymmetric_value : ℚ := ((pixel_value : ℚ) / 65535) * r.max_abs_value
  match r.value_mode with
  | .Symmetric => asymmetric_value * 2 - r.max_abs_value
  | .Asymmetric => asymmetric_value

/-- Rust `ModelValueRange::normalize_model_value`: for the symmetric mode first
`(v + max) / 2`, then always `v / max`. -/
def normalize_model_value (r : ModelValueRange) (model_value : ℚ) : ℚ :=
  let v : ℚ :=
    if r.value_mode = .Symmetric then (model_value + r.max_abs_value) / 2
    else model_value
  v / r.max_abs_value

end ModelValueRange

/-! ## Parsing a ModelValueRange (`FromStr` impl, src/backend/src/model_value_range.rs)

`from_str` delegates the bound to Rust's `f32::from_str`.  That parser is
modelled here symbolically: the accepted grammar is
`Sign? ( 'inf' | 'infinity' | 'nan' | Number )` (keywords case-insensitive),
`Number ::= Digit+ | Digit+ '.' Digit* | Digit* '.' Digit+`, optionally
followed by `('e'|'E') Sign? Digit+`, consuming the whole string.  Finite
values are represented exactly as rationals (f32 rounding is idealised away);
infinities and NaN get dedicated constructors. -/

/-- Result of parsing an `f32` from text: a finite value (exact rational),
a (signed) infinity, or NaN. -/
inductive FloatVal where
  | finite (q : ℚ)
  | infinite (neg : Bool)
  | nan
deriving DecidableEq, Repr

/-- ASCII digit test. -/
def isDigitChar (c : Char) : Bool :=
  '0' ≤ c ∧ c ≤ '9'

/-- Numeric value of an ASCII digit. -/
def digitVal (c : Char) : ℕ :=
  c.toNat - 48

/-- Value of a digit string read in base 10. -/
def natOfDigits (l : List Char) : ℕ :=
  l.foldl (fun a c => 10 * a + digitVal c) 0

/-- Strip one optional leading sign; returns (is-negative, remainder). -/
def stripSign : List Char → Bool × List Char
  | '+' :: rest => (false, rest)
  | '-' :: rest => (true, rest)
  | l => (false, l)

/-- ASCII lower-casing of a single character. -/
def lowerAscii (c : Char) : Char :=
  if 'A' ≤ c ∧ c ≤ 'Z' then Char.ofNat (c.toNat + 32) else c

/-- Apply an optional trailing exponent `('e'|'E') Sign? Digit+` to a parsed
mantissa; any other non-empty remainder is a parse error. -/
def applyExp (mant : ℚ) : List Char → Option ℚ
  | [] => some mant
  | c :: t =>
    if (c = 'e' ∨ c = 'E') ∧ (stripSign t).2 ≠ [] ∧ (stripSign t).2.all isDigitChar then
      some (if (stripSign t).1 then mant / 10 ^ natOfDigits (stripSign t).2
        else mant * 10 ^ natOfDigits (stripSign t).2)
    else none

/-- Parse the `Number` part of an `f32` literal
(`Digit+ | Digit+ '.' Digit* | Digit* '.' Digit+`, optional exponent),
returning its exact value.  `none` models `ParseFloatError`. -/
def parseNumber (l : List Char) : Option ℚ :=
  let ip := l.takeWhile isDigitChar
  match l.dropWhile isDigitChar with
  | [] => if ip = [] then none else some (natOfDigits ip : ℚ)
  | c :: t =>
    if c = '.' then
      let fp := t.takeWhile isDigitChar
      if ip = [] ∧ fp = [] then none
      else
        applyExp ((natOfDigits ip : ℚ) + (natOfDigits fp : ℚ) / 10 ^ fp.length)
          (t.dropWhile isDigitChar)
    else if ip = [] then none
    else applyExp (natOfDigits ip : ℚ) (c :: t)

/-- Model of Rust `f32::from_str`: optional sign, then `inf`/`infinity`/`nan`
(case-insensitive) or a decimal number. -/
def parseFloatVal (l : List Char) : Option FloatVal :=
  let sr := stripSign l
  let low := sr.2.map lowerAscii
  if low = "inf".data ∨ low = "infinity".data then some (.infinite sr.1)
  else if low = "nan".data then some .nan
  else (parseNumber sr.2).map (fun q => .finite (if sr.1 then -q else q))

/-- Variant of `ModelValueRange` with the bound kept in the `f32` result domain (the
parsed bound can be infinite/NaN, which the plain `ℚ`-valued structure cannot
express). -/
structure ModelValueRangeF where
  value_mode : ModelValueMode
  max_abs_value : FloatVal
deriving DecidableEq, Repr

/-- Rust `s.starts_with("+-")` on the character list of `s`. -/
def startsWithPlusMinus : List Char → Bool
  | a :: b :: _ => a = '+' ∧ b = '-'
  | _ => false

/-- The bound substring `from_str` hands to the float parser: `s[2..]` after
a leading `"+-"`, the whole string otherwise. -/
def boundSubstring (s : String) : List Char :=
  if startsWithPlusMinus s.data then s.data.drop 2 else s.data

/-- Rust `impl FromStr for ModelValueRange`: a leading `"+-"` makes the range
symmetric with the bound parsed from the remainder (`s[2..]`); otherwise the
whole string is the bound of an asymmetric range. -/
def ModelValueRangeF.from_str (s : String) : Option ModelValueRangeF :=
  if startsWithPlusMinus s.data then
    (parseFloatVal (s.data.drop 2)).map (fun m => ⟨.Symmetric, m⟩)
  else
    (parseFloatVal s.data).map (fun m => ⟨.Asymmetric, m⟩)

/-- Modelled from the spec's grammar words: an optional exponent —
empty remainder, or `('e'|'E') Sign? Digit+` running to the end. -/
def expTokOpt : List Char → Bool
  | [] => true
  | c :: t => (c = 'e' ∨ c = 'E') ∧ (stripSign t).2 ≠ [] ∧ (stripSign t).2.all isDigitChar

/-- Modelled from the spec's grammar words:
`Number ::= Digit+ | Digit+ '.' Digit* | Digit* '.' Digit+`, optionally
followed by an exponent. -/
def numberTok (l : List Char) : Bool :=
  let ds := l.takeWhile isDigitChar
  match l.dropWhile isDigitChar with
  | [] => ds ≠ []
  | c :: t =>
    if c = '.' then
      (ds ≠ [] ∨ t.takeWhile isDigitChar ≠ []) ∧ expTokOpt (t.dropWhile isDigitChar)
    else ds ≠ [] ∧ expTokOpt (c :: t)

/-- Modelled from the spec: recogniser for the grammar Rust's `f32::from_str`
documents — `Sign? ( 'inf' | 'infinity' | 'nan' | Number )` (keywords
case-insensitive).  Written as a plain acceptor, to be compared with the
value-computing parser `parseFloatVal`. -/
def validFloatTok (l : List Char) : Bool :=
  let body := (stripSign l).2
  let low := body.map lowerAscii
  low = "inf".data ∨ low = "infinity".data ∨ low = "nan".data ∨ numberTok body

/-! ## ModelRunner (src/backend/src/model_runner.rs)

Tensor shapes declared by a model are lists of extents (`wonnx` `Shape.dims`,
`u64` modelled as `ℕ`).  `Shape::dim(i)` indexes `dims` directly and panics
out of bounds; the panic is surfaced through explicit outcome types. -/

/-- Declared tensor shape: the list of extents. -/
abbrev TensorShape := List ℕ

inductive ModelChannelOrder where
  /-- Batch, Channel, Height, Width order -/
  | NCHW
  /-- Batch, Height, Width, Channel order -/
  | NHWC
deriving DecidableEq, Repr

namespace ModelChannelOrder

/-- Rust `ModelChannelOrder::get_width_idx` -/
def get_width_idx (o : ModelChannelOrder) (batch : Bool) : ℕ :=
  let with_batch := match o with | NCHW => 3 | NHWC => 2
  if batch then with_batch else with_batch - 1

/-- Rust `ModelChannelOrder::get_height_idx` -/
def get_height_idx (o : ModelChannelOrder) (batch : Bool) : ℕ :=
  let with_batch := match o with | NCHW => 2 | NHWC => 1
  if batch then with_batch else with_batch - 1

/-- Rust `ModelChannelOrder::get_channel_idx` -/
def get_channel_idx (o : ModelChannelOrder) (batch : Bool) : ℕ :=
  let with_batch := match o with | NCHW => 1 | NHWC => 3
  if batch then with_batch else with_batch - 1

/-- Rust `ModelChannelOrder::get_width`: `dims.get(idx)` (checked access). -/
def get_width (o : ModelChannelOrder) (shape : TensorShape) : Option ℕ :=
  shape[o.get_width_idx (shape.length = 4)]?

/-- Rust `ModelChannelOrder::get_height` -/
def get_height (o : ModelChannelOrder) (shape : TensorShape) : Option ℕ :=
  shape[o.get_height_idx (shape.length = 4)]?

/-- Rust `ModelChannelOrder::get_batchsize`: `dims.get(0)` when rank is 4,
otherwise `None`. -/
def get_batchsize (shape : TensorShape) : Option ℕ :=
  if shape.length = 4 then shape[0]? else none

/-- Rust `ModelChannelOrder::get_channels` -/
def get_channels (o : ModelChannelOrder) (shape : TensorShape) : Option ℕ :=
  shape[o.get_channel_idx (shape.length = 4)]?

end ModelChannelOrder

/-- The `ModelRunnerError` variants relevant to model-shape negotiation. -/
inductive ModelRunnerError where
  | ModelInputError
  | InvalidInputShape (shape : TensorShape)
  | NoSuitableOutput
deriving DecidableEq, Repr

/-- Outcome of `ModelRunner::get_graph_input`, with a distinguished value for
a Rust panic (out-of-bounds index). -/
inductive GraphInputOutcome where
  | ok (shape : TensorShape) (order : ModelChannelOrder)
  | err (e : ModelRunnerError)
  | panic
deriving DecidableEq, Repr

/-- Rust `ModelRunner::get_graph_input`.  The argument is the list of declared
graph input shapes (input names are irrelevant here and omitted).  Mirrors
the source exactly: more than one input is rejected; `inputs[0]` is indexed
unconditionally (panics when there is no input); `dim(0)` must equal 1;
`dim(1) == 3` selects NCHW, else `dim(3) == 3` selects NHWC, else the shape
is rejected.  Each `dim` access panics when the index is out of range. -/
def get_graph_input (inputs : List TensorShape) : GraphInputOutcome :=
  if 1 < inputs.length then .err .ModelInputError
  else
    match inputs with
    | [] => .panic
    | input_shape :: _ =>
      match input_shape[0]? with
      | none => .panic
      | some d0 =>
        if d0 ≠ 1 then .err (.InvalidInputShape input_shape)
        else
          match input_shape[1]? with
          | none => .panic
          | some d1 =>
            if d1 = 3 then .ok input_shape .NCHW
            else
              match input_shape[3]? with
              | none => .panic
              | some d3 =>
                if d3 = 3 then .ok input_shape .NHWC
                else .err (.InvalidInputShape input_shape)

/-- Outcome of `ModelRunner::get_scale_factor`, with a distinguished value
for the `usize` division-by-zero panic. -/
inductive ScaleOutcome where
  | noMatch
  | found (scale : ℕ)
  | panicDiv
deriving DecidableEq, Repr

/-- Rust `ModelRunner::get_scale_factor`.  Batch and channel counts (as `Option`
values) must agree; the four spatial extents are read with checked access
(`?` on `Option`, a miss yields no match); then `xscale = out_w / in_w` and
`yscale = out_h / in_h` are computed with `usize` division — which panics when
an input extent is 0 — and the output qualifies when both quotients agree and
multiply back exactly. -/
def get_scale_factor (input_shape : TensorShape) (o : ModelChannelOrder)
    (output_shape : TensorShape) : ScaleOutcome :=
  if ModelChannelOrder.get_batchsize input_shape = ModelChannelOrder.get_batchsize output_shape
      ∧ o.get_channels input_shape = o.get_channels output_shape then
    match o.get_width input_shape, o.get_width output_shape,
        o.get_height input_shape, o.get_height output_shape with
    | some in_width, some out_width, some in_height, some out_height =>
      if in_width = 0 ∨ in_height = 0 then .panicDiv
      else
        let xscale := out_width / in_width
        let yscale := out_height / in_height
        if xscale = yscale ∧ in_width * xscale = out_width ∧ in_height * yscale = out_height
        then .found xscale
        else .noMatch
    | _, _, _, _ => .noMatch
  else .noMatch

/-- A declared graph output: its name and the result of `get_shape()`
(`none` models a shape that fails to parse — such outputs are skipped). -/
abbrev GraphOutput := String × Option TensorShape

/-- Outcome of `ModelRunner::get_matching_output`. -/
inductive MatchOutcome where
  | ok (name : String) (scale : ℕ)
  | err
  | panicDiv
deriving DecidableEq, Repr

/-- The scaled-output search of `get_matching_output`: the first output whose
shape yields a scale factor wins; a division panic inside `get_scale_factor`
aborts the search. -/
def searchScaled (input_shape : TensorShape) (o : ModelChannelOrder) :
    List GraphOutput → MatchOutcome
  | [] => .err
  | (name, shape?) :: rest =>
    match shape? with
    | none => searchScaled input_shape o rest
    | some output_shape =>
      match get_scale_factor input_shape o output_shape with
      | .panicDiv => .panicDiv
      | .found scale => .ok name scale
      | .noMatch => searchScaled input_shape o rest

/-- Rust `ModelRunner::get_matching_output`: prefer the first output whose parsed
shape equals the input shape (scale 1); otherwise search for an
integer-multiple output; otherwise `NoSuitableOutput`. -/
def get_matching_output (outputs : List GraphOutput) (input_shape : TensorShape)
    (o : ModelChannelOrder) : MatchOutcome :=
  match outputs.find? (fun out => out.2 = some input_shape) with
  | some out => .ok out.1 1
  | none => searchScaled input_shape o outputs

/-! ## ModelRunner::scale_chunk (src/backend/src/model_runner.rs)

A CHW tensor's values are modelled as a total function `ℕ → ℕ → ℕ → ℚ`
(channel, row, column).  `scale_chunk` overwrites the array in place —
`chunk[(c, y, x)] = mean of the scale×scale block at (scale*y, scale*x)` —
iterating `c`, then `y`, then `x` in increasing order, and finally returns
the slice `[.., ..H/scale, ..W/scale]`. -/

/-- Values of a 3-axis tensor. -/
abbrev Grid := ℕ → ℕ → ℕ → ℚ

/-- Point update of a `Grid`. -/
def updGrid (g : Grid) (c y x : ℕ) (v : ℚ) : Grid :=
  fun c' y' x' => if c' = c ∧ y' = y ∧ x' = x then v else g c' y' x'

/-- The accumulation `nv` of one loop body: the sum of the `scale × scale`
block of `g` whose top-left corner is `(scale*y, scale*x)` in channel `c`. -/
def blockSum (g : Grid) (scale c y x : ℕ) : ℚ :=
  ((List.range scale).map (fun dy =>
    ((List.range scale).map (fun dx => g c (scale * y + dy) (scale * x + dx))).sum)).sum

/-- One body of the innermost loop of `scale_chunk`:
`chunk[(c, y, x)] = nv / (scale * scale)`. -/
def scaleStep (scale : ℕ) (g : Grid) (c y x : ℕ) : Grid :=
  updGrid g c y x (blockSum g scale c y x / ((scale * scale : ℕ) : ℚ))

/-- The innermost loop `for x in 0..n` of `scale_chunk`. -/
def innerLoop (scale c y : ℕ) (g : Grid) : ℕ → Grid
  | 0 => g
  | n + 1 => scaleStep scale (innerLoop scale c y g n) c y n

/-- The middle loop `for y in 0..m` of `scale_chunk` (each row runs the inner
loop over `W'` columns). -/
def rowLoop (scale c : ℕ) (W' : ℕ) (g : Grid) : ℕ → Grid
  | 0 => g
  | m + 1 => innerLoop scale c m (rowLoop scale c W' g m) W'

/-- The outer loop `for c in 0..k` of `scale_chunk`. -/
def chanLoop (scale : ℕ) (H' W' : ℕ) (g : Grid) : ℕ → Grid
  | 0 => g
  | k + 1 => rowLoop scale k W' (chanLoop scale H' W' g k) H'

/-- Rust `ModelRunner::scale_chunk` on a tensor of extents `(C, H, W)`: run the
triple loop in place, then `slice_move` to `(C, H/scale, W/scale)`.  Returns
the new extents and the value function. -/
def scale_chunk (C H W : ℕ) (g : Grid) (scale : ℕ) : (ℕ × ℕ × ℕ) × Grid :=
  ((C, H / scale, W / scale), chanLoop scale (H / scale) (W / scale) g C)

/-- The tail of `ModelRunner::process_chunk` once the backend has produced a
CHW output of extents `(C, H, W)`: when the detected model scale is greater
than 1 the output is immediately block-averaged by `scale_chunk`, otherwise
it is returned unchanged. -/
def process_chunk_output (C H W : ℕ) (g : Grid) (scale : ℕ) : (ℕ × ℕ × ℕ) × Grid :=
  if 1 < scale then scale_chunk C H W g scale else ((C, H, W), g)

/-! ## ImageChunkGenerator (src/backend/src/image_chunk_iterator.rs)

A finalized generator is characterised by the validated configuration
`(chunksize, chunk_padding, overlap)` and the original image resolution
`(W, H)`; `pad_image` pads both spatial axes by `chunksize` on each side and
records `input_image_padding = (chunksize, chunksize)`. -/

/-- Rust `ImageChunkGeneratorError` -/
inductive ImageChunkGeneratorError where
  | InvalidPaddingValue (chunk_padding chunksize : ℕ)
  | InvalidOverlapValue (overlap usable : ℕ)
deriving DecidableEq, Repr

/-- Builder state: configuration plus the (unpadded) image tensor extents
`(channels, height, width)`. -/
structure ImageChunkGeneratorBuilder where
  channels : ℕ
  height : ℕ
  width : ℕ
  chunksize : ℕ
  overlap : ℕ
  chunk_padding : ℕ
deriving DecidableEq, Repr

/-- The finalized generator: validated configuration, padded tensor extents,
recorded original resolution `(W, H)` and applied input padding. -/
structure FinalizedImageChunkGenerator where
  channels : ℕ
  padded_height : ℕ
  padded_width : ℕ
  chunksize : ℕ
  overlap : ℕ
  chunk_padding : ℕ
  input_image_resolution : ℕ × ℕ
  input_image_padding : ℕ × ℕ
deriving DecidableEq, Repr

/-- Rust `ImageChunkGeneratorBuilder::new_from_array`: default chunksize 440,
overlap 6, chunk_padding 60; resolution and padding are computed at
finalization. -/
def new_from_array (channels height width : ℕ) : ImageChunkGeneratorBuilder :=
  { channels := channels, height := height, width := width,
    chunksize := 440, overlap := 6, chunk_padding := 60 }

/-- Rust `ImageChunkGeneratorBuilder::finalize`: reject `2*chunk_padding ≥
chunksize` with `InvalidPaddingValue`, then `2*overlap > chunksize -
2*chunk_padding` with `InvalidOverlapValue`; only then record the original
resolution `(shape[2], shape[1])` and pad both spatial axes by `chunksize`
(reflect padding — only the extents matter here). -/
def finalize (b : ImageChunkGeneratorBuilder) :
    Except ImageChunkGeneratorError FinalizedImageChunkGenerator :=
  if 2 * b.chunk_padding ≥ b.chunksize then
    .error (.InvalidPaddingValue b.chunk_padding b.chunksize)
  else if 2 * b.overlap > b.chunksize - 2 * b.chunk_padding then
    .error (.InvalidOverlapValue b.overlap (b.chunksize - 2 * b.chunk_padding))
  else
    .ok { channels := b.channels,
          padded_height := b.height + 2 * b.chunksize,
          padded_width := b.width + 2 * b.chunksize,
          chunksize := b.chunksize,
          overlap := b.overlap,
          chunk_padding := b.chunk_padding,
          input_image_resolution := (b.width, b.height),
          input_image_padding := (b.chunksize, b.chunksize) }

/-- The raster scan of `ImageChunkIterator::next`, unrolled into the list of
emitted global coordinates `(x, y)`: starting from the cursor `(x, y)`, while
`y < H` emit `(x, y)`, advance `x` by `step`, and on `x ≥ W` reset `x` to 0
and advance `y` by `step`.  `step = (chunksize - 2*chunk_padding) - overlap`
is positive for every configuration `finalize` accepts, which the hypothesis
records and the recursion consumes for termination. -/
def emitFrom (W H step : ℕ) (hs : 0 < step) (x y : ℕ) : List (ℕ × ℕ) :=
  if _h : y < H then
    (x, y) ::
      (if W ≤ x + step then emitFrom W H step hs 0 (y + step)
       else emitFrom W H step hs (x + step) y)
  else []
termination_by (H - y, W - x)
decreasing_by
  · exact Prod.Lex.left _ _ (by omega)
  · exact Prod.Lex.right _ (by omega)

/-- Rust `FinalizedImageChunkGenerator::iter`, collected into the list of emitted
chunk coordinates: iteration starts at cursor `(0, 0)`. -/
def chunkCoords (g : FinalizedImageChunkGenerator)
    (hs : 0 < g.chunksize - 2 * g.chunk_padding - g.overlap) : List (ℕ × ℕ) :=
  emitFrom g.input_image_resolution.1 g.input_image_resolution.2
    (g.chunksize - 2 * g.chunk_padding - g.overlap) hs 0 0

/-- The clamped usable width of `ImageChunk::get_usable_range`:
`min(chunksize - 2*chunk_padding, W - gx)` (one axis). -/
def usableExtent (u R gx : ℕ) : ℕ :=
  min u (R - gx)

/-- The net factor `FinalizedImageChunkGenerator::scale_overlap` applies on
one axis to the cell at offset `col` inside the clamped usable region of the
tile at global offset `gx`: the leading `overlap`-wide band is halved when
`gx > 0`, and the trailing `overlap`-wide band (the last `overlap` cells of
the clamped region) is halved when `gx + (chunksize - 2*chunk_padding) < R`. -/
def overlapFactor (u v R gx col : ℕ) : ℚ :=
  (if 0 < gx ∧ col < v then (1 : ℚ) / 2 else 1) *
    (if gx + u < R ∧ usableExtent u R gx - v ≤ col then (1 : ℚ) / 2 else 1)

/-- The blend weight a tile emitted at `(gx, gy)` contributes to image pixel
`(px, py)`: zero unless the pixel lies in the tile's clamped usable region;
inside it, the product of the per-axis `scale_overlap` factors.  This is the
contribution accumulated by `ImageProcessor::process_image` when the model is
the identity on a unit image. -/
def tileWeight (u v W H gx gy px py : ℕ) : ℚ :=
  if gx ≤ px ∧ px < gx + usableExtent u W gx ∧ gy ≤ py ∧ py < gy + usableExtent u H gy then
    overlapFactor u v W gx (px - gx) * overlapFactor u v H gy (py - gy)
  else 0

/-- Total blend weight accumulated at pixel `(px, py)`: the sum over all
emitted tiles of their `scale_overlap`-weighted contribution at that pixel
(additive accumulation, as `ImageProcessor::process_image` performs). -/
def totalWeight (chunksize chunk_padding overlap W H : ℕ)
    (hs : 0 < chunksize - 2 * chunk_padding - overlap) (px py : ℕ) : ℚ :=
  let u := chunksize - 2 * chunk_padding
  ((emitFrom W H (u - overlap) hs 0 0).map
    (fun gc => tileWeight u overlap W H gc.1 gc.2 px py)).sum

/-- A concrete builder used in witnesses: a 6×6 image (exactly one usable
tile per axis) with chunksize 10, chunk_padding 2, overlap 2. -/
def demoBuilder : ImageChunkGeneratorBuilder :=
  { channels := 3, height := 6, width := 6, chunksize := 10, overlap := 2, chunk_padding := 2 }

/-- The finalized generator `finalize demoBuilder` produces. -/
def demoFinalized : FinalizedImageChunkGenerator :=
  { channels := 3, padded_height := 26, padded_width := 26, chunksize := 10,
    overlap := 2, chunk_padding := 2,
    input_image_resolution := (6, 6), input_image_padding := (10, 10) }

/-! # Theorems -/

/-! ## Claim C8 — the ChunkSize helpers -/

/-- Claim C8, counterexample: `remaining_area_after_padding` is claimed to
return `(h-2p, w-2p)` without failing for every padding value, but the
`usize` subtractions underflow: on a 1×1 `ChunkSize` with padding 1 the call
panics (modelled as `none`), and `stepsize_with_overlap` likewise fails for
an overlap exceeding the extents. -/
theorem chunkSize_helpers_can_fail :
    ChunkSize.remaining_area_after_padding { width := 1, height := 1 } 1 = none ∧
      ChunkSize.stepsize_with_overlap { width := 1, height := 1 } 2 = none := by
  constructor <;> decide

/-- Claim C8, amended: whenever the subtractions do not underflow — `2*p`
at most each extent for `remaining_area_after_padding`, the overlap at most
each extent for `stepsize_with_overlap` — the helpers succeed and return
`(h-2p, w-2p)` resp. `(h-o, w-o)`. -/
theorem chunkSize_helpers_ok (cs : ChunkSize) (p o : ℕ)
    (hp₁ : 2 * p ≤ cs.height) (hp₂ : 2 * p ≤ cs.width)
    (ho₁ : o ≤ cs.height) (ho₂ : o ≤ cs.width) :
    ChunkSize.remaining_area_after_padding cs p =
        some { height := cs.height - 2 * p, width := cs.width - 2 * p } ∧
      ChunkSize.stepsize_with_overlap cs o =
        some { height := cs.height - o, width := cs.width - o } := by
  unfold ChunkSize.remaining_area_after_padding ChunkSize.stepsize_with_overlap
  rw [if_pos ⟨hp₁, hp₂⟩, if_pos ⟨ho₁, ho₂⟩]
  exact ⟨rfl, rfl⟩

/-- Claim C8, witness: the amended helper theorem applied to a 440×440 chunk
with padding 60 and overlap 6. -/
theorem chunkSize_helpers_ok_witness :
    ChunkSize.remaining_area_after_padding { width := 440, height := 440 } 60 =
        some { width := 320, height := 320 } ∧
      ChunkSize.stepsize_with_overlap { width := 440, height := 440 } 6 =
        some { width := 434, height := 434 } :=
  chunkSize_helpers_ok { width := 440, height := 440 } 60 6
    (by decide) (by decide) (by decide) (by decide)

/-! ## Claim C2 — finalize validation -/

/-- Claim C2: `finalize` succeeds exactly when `2*chunk_padding < chunksize`
and `2*overlap ≤ chunksize - 2*chunk_padding`; when the padding bound is
violated it fails with `InvalidPaddingValue`, and when only the overlap bound
is violated it fails with `InvalidOverlapValue` (the checks precede the
padding of the tensor, so a failing `finalize` leaves the tensor unpadded). -/
theorem finalize_ok_iff (b : ImageChunkGeneratorBuilder) :
    ((∃ f, finalize b = .ok f) ↔
        2 * b.chunk_padding < b.chunksize ∧
          2 * b.overlap ≤ b.chunksize - 2 * b.chunk_padding) ∧
      (b.chunksize ≤ 2 * b.chunk_padding →
        finalize b = .error (.InvalidPaddingValue b.chunk_padding b.chunksize)) ∧
      (2 * b.chunk_padding < b.chunksize →
        b.chunksize - 2 * b.chunk_padding < 2 * b.overlap →
        finalize b =
          .error (.InvalidOverlapValue b.overlap (b.chunksize - 2 * b.chunk_padding))) := by
  unfold finalize
  split_ifs with h₁ h₂
  · refine ⟨?_, fun _ => rfl, fun hc _ => absurd h₁ (by omega)⟩
    simp only [ge_iff_le] at h₁
    constructor
    · rintro ⟨f, hf⟩
      cases hf
    · rintro ⟨hlt, _⟩
      omega
  · refine ⟨?_, fun hc => absurd h₁ (by omega), fun _ ho => rfl⟩
    constructor
    · rintro ⟨f, hf⟩
      cases hf
    · rintro ⟨_, hle⟩
      omega
  · refine ⟨?_, fun hc => absurd h₁ (by omega), fun _ ho => absurd h₂ (by omega)⟩
    exact ⟨fun _ => by omega, fun _ => ⟨_, rfl⟩⟩

/-- Claim C2, witness: the spec's example configuration (chunksize 50,
padding 10, overlap 4 on a 100×100 image) finalizes successfully, and the
default padding 60 with chunksize lowered to 100 fails the padding bound
with `InvalidPaddingValue`. -/
theorem finalize_ok_iff_witness :
    (∃ f, finalize ⟨3, 100, 100, 50, 4, 10⟩ = .ok f) ∧
      finalize ⟨3, 100, 100, 100, 6, 60⟩ = .error (.InvalidPaddingValue 60 100) :=
  ⟨(finalize_ok_iff ⟨3, 100, 100, 50, 4, 10⟩).1.mpr (by decide),
    (finalize_ok_iff ⟨3, 100, 100, 100, 6, 60⟩).2.1 (by decide)⟩

/-! ## Claim C3 — value-range round trip -/

/-- Claim C3, counterexample: with `max_abs_value = 0` the claimed round trip
fails: `normalize_model_value` divides by zero, so the result (NaN for `f32`,
`0` in the exact-rational idealisation) is not `p/65535 = 1` at `p = 65535`. -/
theorem value_range_roundtrip_fails_at_zero :
    ModelValueRange.normalize_model_value (ModelValueRange.asymmetric 0)
        (ModelValueRange.pixel_value_to_model (ModelValueRange.asymmetric 0) 65535) = 0 ∧
      (65535 : ℚ) / 65535 = 1 ∧ (0 : ℚ) ≠ 1 := by
  refine ⟨?_, by norm_num, by norm_num⟩
  simp [ModelValueRange.normalize_model_value, ModelValueRange.pixel_value_to_model,
    ModelValueRange.asymmetric]

/-- Claim C3, amended: for every pixel value `p ≤ 65535` and every mode with
`max_abs_value > 0`, `normalize_model_value (pixel_value_to_model p)` equals
`p/65535` exactly (in the exact-rational idealisation of `f32`; exactness in
particular implies the claimed floating-point tolerance). -/
theorem value_range_roundtrip (r : ModelValueRange) (p : ℕ)
    (_hp : p ≤ 65535) (hmax : 0 < r.max_abs_value) :
    ModelValueRange.normalize_model_value r (ModelValueRange.pixel_value_to_model r p) =
      (p : ℚ) / 65535 := by
  obtain ⟨mode, max⟩ := r
  have hne : max ≠ 0 := ne_of_gt hmax
  cases mode <;>
    simp only [ModelValueRange.normalize_model_value, ModelValueRange.pixel_value_to_model] <;>
    simp <;> field_simp <;> ring

/-- Claim C3, witness: the round trip at `p = 13107` for the symmetric range
with bound 2. -/
theorem value_range_roundtrip_witness :
    ModelValueRange.normalize_model_value (ModelValueRange.symmetric 2)
        (ModelValueRange.pixel_value_to_model (ModelValueRange.symmetric 2) 13107) =
      (13107 : ℚ) / 65535 :=
  value_range_roundtrip (ModelValueRange.symmetric 2) 13107 (by norm_num)
    (by norm_num [ModelValueRange.symmetric])

/-! ## Claim C10 — zero-input models panic -/

/-- Evaluating `get_graph_input` on the empty input list: it reaches the `inputs[0]` index
and panics. -/
theorem get_graph_input_nil : get_graph_input [] = .panic := rfl

/-- Evaluating `get_graph_input` on a single input: it reduces to the shape analysis of that
input. -/
theorem get_graph_input_one (shape : TensorShape) :
    get_graph_input [shape] =
      (match shape[0]? with
      | none => .panic
      | some d0 =>
        if d0 ≠ 1 then .err (.InvalidInputShape shape)
        else
          match shape[1]? with
          | none => .panic
          | some d1 =>
            if d1 = 3 then .ok shape .NCHW
            else
              match shape[3]? with
              | none => .panic
              | some d3 =>
                if d3 = 3 then .ok shape .NHWC
                else .err (.InvalidInputShape shape)) := by
  simp [get_graph_input]

/-- Evaluating `get_graph_input` with two or more inputs is `ModelInputError`. -/
theorem get_graph_input_many (a b : TensorShape) (rest : List TensorShape) :
    get_graph_input (a :: b :: rest) = .err .ModelInputError := by
  simp only [get_graph_input, List.length_cons]
  rw [if_pos (by omega)]

/-- A single-input graph can never produce `ModelInputError`: the only
outcomes are success, `InvalidInputShape`, or a panic. -/
theorem get_graph_input_one_ne_inputErr (shape : TensorShape) :
    get_graph_input [shape] ≠ .err .ModelInputError := by
  rw [get_graph_input_one]
  split
  · simp
  · split_ifs
    · simp
    · split
      · simp
      · split_ifs
        · simp
        · split
          · simp
          · split_ifs <;> simp

/-- Claim C10: `ModelRunner::get_graph_input` checks only for more than one
input before indexing `inputs[0]`, so a graph declaring zero inputs panics
rather than producing a model-shape error, and `ModelInputError` is returned
exactly in the more-than-one-input case. -/
theorem get_graph_input_empty_panics :
    get_graph_input [] = .panic ∧
      ∀ inputs : List TensorShape,
        (get_graph_input inputs = .err .ModelInputError ↔ 1 < inputs.length) := by
  refine ⟨get_graph_input_nil, fun inputs => ?_⟩
  rcases inputs with _ | ⟨shape, _ | ⟨s₂, rest⟩⟩
  · rw [get_graph_input_nil]
    simp
  · constructor
    · intro hr
      exact absurd hr (get_graph_input_one_ne_inputErr shape)
    · intro hlen
      simp at hlen
  · constructor
    · intro _
      simp only [List.length_cons]
      omega
    · intro _
      exact get_graph_input_many shape s₂ rest

/-- Claim C10, witness: the theorem applied to the empty input list and to a
concrete two-input graph. -/
theorem get_graph_input_empty_panics_witness :
    get_graph_input [] = .panic ∧
      get_graph_input [[1, 3, 8, 8], [1, 3, 8, 8]] = .err .ModelInputError :=
  ⟨get_graph_input_empty_panics.1,
    (get_graph_input_empty_panics.2 [[1, 3, 8, 8], [1, 3, 8, 8]]).mpr (by decide)⟩

/-! ## Claim C5 — layout detection -/

/-- Claim C5, counterexample: the claim admits rank-3 shapes and says a
shape whose axis 0 equals 3 is detected as NCHW; but the code first requires
`dim(0) == 1` unconditionally, so the rank-3 channel-first shape `[3,10,10]`
is rejected with the invalid-input-shape error instead of being accepted. -/
theorem layout_detection_rank3_rejected :
    get_graph_input [[3, 10, 10]] = .err (.InvalidInputShape [3, 10, 10]) ∧
      GraphInputOutcome.err (.InvalidInputShape [3, 10, 10]) ≠
        .ok [3, 10, 10] .NCHW := by
  constructor
  · decide
  · simp

/-- Claim C5, amended: `get_graph_input` treats axis 0 as the batch axis of
every shape and requires it to equal 1 — any other axis-0 value (including a
rank-3 channel-first shape) is rejected with the invalid-input-shape error.
Given `dims[0] = 1`: axis 1 equal to 3 selects NCHW; otherwise an existing
axis 3 equal to 3 selects NHWC, an existing axis 3 different from 3 is
rejected with the invalid-input-shape error, and a missing axis (rank below
the accessed index, also the empty shape) makes the code panic on an
out-of-bounds `dim` access rather than returning an error. -/
theorem layout_detection_spec (shape : TensorShape) :
    (shape[0]? = none → get_graph_input [shape] = .panic) ∧
      (∀ d0, shape[0]? = some d0 → d0 ≠ 1 →
        get_graph_input [shape] = .err (.InvalidInputShape shape)) ∧
      (shape[0]? = some 1 → shape[1]? = none → get_graph_input [shape] = .panic) ∧
      (shape[0]? = some 1 → shape[1]? = some 3 →
        get_graph_input [shape] = .ok shape .NCHW) ∧
      (∀ d1, shape[0]? = some 1 → shape[1]? = some d1 → d1 ≠ 3 →
        shape[3]? = none → get_graph_input [shape] = .panic) ∧
      (∀ d1, shape[0]? = some 1 → shape[1]? = some d1 → d1 ≠ 3 →
        shape[3]? = some 3 → get_graph_input [shape] = .ok shape .NHWC) ∧
      (∀ d1 d3, shape[0]? = some 1 → shape[1]? = some d1 → d1 ≠ 3 →
        shape[3]? = some d3 → d3 ≠ 3 →
        get_graph_input [shape] = .err (.InvalidInputShape shape)) := by
  rw [get_graph_input_one]
  refine ⟨?_, ?_, ?_, ?_, ?_, ?_, ?_⟩
  · intro h0
    simp [h0]
  · intro d0 h0 hne
    simp [h0, hne]
  · intro h0 h1
    simp [h0, h1]
  · intro h0 h1
    simp [h0, h1]
  · intro d1 h0 h1 hne h3
    simp [h0, h1, hne, h3]
  · intro d1 h0 h1 hne h3
    simp [h0, h1, hne, h3]
  · intro d1 d3 h0 h1 hne1 h3 hne3
    simp [h0, h1, hne1, h3, hne3]

/-- Claim C5, witness: the amended layout characterisation applied to the
standard NCHW shape `[1,3,224,224]`, the NHWC shape `[1,224,224,3]`, the
wrong-batch shape `[2,3,8,8]`, and the rank-3 shape `[1,5,7]` (panic). -/
theorem layout_detection_spec_witness :
    get_graph_input [[1, 3, 224, 224]] = .ok [1, 3, 224, 224] .NCHW ∧
      get_graph_input [[1, 224, 224, 3]] = .ok [1, 224, 224, 3] .NHWC ∧
      get_graph_input [[2, 3, 8, 8]] = .err (.InvalidInputShape [2, 3, 8, 8]) ∧
      get_graph_input [[1, 5, 7]] = .panic :=
  ⟨(layout_detection_spec [1, 3, 224, 224]).2.2.2.1 rfl rfl,
    (layout_detection_spec [1, 224, 224, 3]).2.2.2.2.2.1 224 rfl rfl (by decide) rfl,
    (layout_detection_spec [2, 3, 8, 8]).2.1 2 rfl (by decide),
    (layout_detection_spec [1, 5, 7]).2.2.2.2.1 5 rfl rfl (by decide) rfl⟩

/-! ## Claim C4 — output selection -/

/-- The spec's description of a qualifying scaled output: batch and channel
counts match the input's, and both spatial axes are the same integer
multiple `k` of the input's corresponding axes. -/
def QualifiesSpec (input_shape output_shape : TensorShape) (o : ModelChannelOrder)
    (k : ℕ) : Prop :=
  ModelChannelOrder.get_batchsize input_shape = ModelChannelOrder.get_batchsize output_shape ∧
    o.get_channels input_shape = o.get_channels output_shape ∧
    ∃ iw ow ih oh,
      o.get_width input_shape = some iw ∧ o.get_width output_shape = some ow ∧
        o.get_height input_shape = some ih ∧ o.get_height output_shape = some oh ∧
        ow = k * iw ∧ oh = k * ih

/-- With nonzero input spatial extents, `get_scale_factor` never divides by
zero, and it finds `k` exactly on the spec's qualifying outputs. -/
theorem get_scale_factor_spec (input_shape output_shape : TensorShape)
    (o : ModelChannelOrder) (iw ih : ℕ)
    (hiw : o.get_width input_shape = some iw) (hw : 0 < iw)
    (hih : o.get_height input_shape = some ih) (hh : 0 < ih) :
    get_scale_factor input_shape o output_shape ≠ .panicDiv ∧
      ∀ k, (get_scale_factor input_shape o output_shape = .found k ↔
        QualifiesSpec input_shape output_shape o k) := by
  unfold get_scale_factor
  split_ifs with hbc
  · rw [hiw, hih]
    cases how : o.get_width output_shape with
    | none =>
      refine ⟨by simp, fun k => ?_⟩
      constructor
      · intro hfound
        cases hfound
      · rintro ⟨-, -, iw', ow, ih', oh, hiw', how', -⟩
        rw [how] at how'
        cases how'
    | some ow =>
      cases hoh : o.get_height output_shape with
      | none =>
        refine ⟨by simp, fun k => ?_⟩
        constructor
        · intro hfound
          cases hfound
        · rintro ⟨-, -, iw', ow', ih', oh, -, -, hih', hoh', -⟩
          rw [hoh] at hoh'
          cases hoh'
      | some oh =>
        dsimp only
        rw [if_neg (show ¬ (iw = 0 ∨ ih = 0) by omega)]
        refine ⟨?_, fun k => ?_⟩
        · split_ifs <;> simp
        · split_ifs with hq
          · obtain ⟨hxy, hx, hy⟩ := hq
            constructor
            · intro hfound
              cases hfound
              refine ⟨hbc.1, hbc.2, iw, ow, ih, oh, hiw, how, hih, hoh, ?_, ?_⟩
              · rw [Nat.mul_comm]
                exact hx.symm
              · rw [hxy, Nat.mul_comm]
                exact hy.symm
            · rintro ⟨-, -, iw', ow', ih', oh', hiw', how', hih', hoh', hko, hkh⟩
              rw [hiw] at hiw'
              rw [how] at how'
              rw [hih] at hih'
              rw [hoh] at hoh'
              cases hiw'
              cases how'
              cases hih'
              cases hoh'
              have hc : ow / iw = k := by
                rw [hko, Nat.mul_div_cancel _ hw]
              rw [hc]
          · constructor
            · intro hfound
              cases hfound
            · rintro ⟨-, -, iw', ow', ih', oh', hiw', how', hih', hoh', hko, hkh⟩
              rw [hiw] at hiw'
              rw [how] at how'
              rw [hih] at hih'
              rw [hoh] at hoh'
              cases hiw'
              cases how'
              cases hih'
              cases hoh'
              have hc : ow / iw = k := by
                rw [hko, Nat.mul_div_cancel _ hw]
              have hd : oh / ih = k := by
                rw [hkh, Nat.mul_div_cancel _ hh]
              exact absurd ⟨by rw [hc, hd], by rw [hc, hko, Nat.mul_comm],
                by rw [hd, hkh, Nat.mul_comm]⟩ hq
  · refine ⟨by simp, fun k => ?_⟩
    constructor
    · intro hfound
      cases hfound
    · rintro ⟨hb, hc, -⟩
      exact absurd ⟨hb, hc⟩ hbc

/-- The scaled search finds the spec's qualifying outputs: with nonzero
input spatial extents it never panics, returns `err` when nothing
qualifies, and otherwise returns some listed qualifying output with its
multiple. -/
theorem searchScaled_spec (input_shape : TensorShape) (o : ModelChannelOrder)
    (iw ih : ℕ)
    (hiw : o.get_width input_shape = some iw) (hw : 0 < iw)
    (hih : o.get_height input_shape = some ih) (hh : 0 < ih) :
    ∀ outputs : List GraphOutput,
      ((∀ out ∈ outputs, ∀ sh, out.2 = some sh →
          ∀ k, ¬ QualifiesSpec input_shape sh o k) →
        searchScaled input_shape o outputs = .err) ∧
      ((∃ out ∈ outputs, ∃ sh k, out.2 = some sh ∧ QualifiesSpec input_shape sh o k) →
        ∃ name k sh, searchScaled input_shape o outputs = .ok name k ∧
          (name, some sh) ∈ outputs ∧ QualifiesSpec input_shape sh o k) := by
  intro outputs
  induction outputs with
  | nil =>
    refine ⟨fun _ => rfl, ?_⟩
    rintro ⟨out, hmem, -⟩
    cases hmem
  | cons hd tl ih' =>
    obtain ⟨name, sh?⟩ := hd
    constructor
    · intro hnone
      cases hsh : sh? with
      | none =>
        simpa [searchScaled, hsh] using
          ih'.1 (fun out hmem sh hsh' k => hnone out (by simp [hmem]) sh hsh' k)
      | some sh =>
        have hno : ∀ k, ¬ QualifiesSpec input_shape sh o k :=
          fun k => hnone (name, sh?) (by simp) sh (by rw [hsh]) k
        have hne := (get_scale_factor_spec input_shape sh o iw ih hiw hw hih hh).1
        have hiff := (get_scale_factor_spec input_shape sh o iw ih hiw hw hih hh).2
        simp only [searchScaled, hsh]
        cases hgs : get_scale_factor input_shape o sh with
        | panicDiv => exact absurd hgs hne
        | found k => exact absurd ((hiff k).mp hgs) (hno k)
        | noMatch =>
          exact ih'.1 (fun out hmem sh hsh' k => hnone out (by simp [hmem]) sh hsh' k)
    · rintro ⟨out, hmem, sh, k, hsh', hq⟩
      cases hsh : sh? with
      | none =>
        have : out ∈ tl := by
          rcases List.mem_cons.mp hmem with heq | hmem'
          · rw [heq] at hsh'
            simp only [hsh] at hsh'
            cases hsh'
          · exact hmem'
        obtain ⟨name', k', sh'', hres, hmem'', hq''⟩ :=
          ih'.2 ⟨out, this, sh, k, hsh', hq⟩
        exact ⟨name', k', sh'', by simpa [searchScaled, hsh] using hres,
          List.mem_cons_of_mem _ hmem'', hq''⟩
      | some shHd =>
        have hne := (get_scale_factor_spec input_shape shHd o iw ih hiw hw hih hh).1
        have hiff := (get_scale_factor_spec input_shape shHd o iw ih hiw hw hih hh).2
        simp only [searchScaled, hsh]
        cases hgs : get_scale_factor input_shape o shHd with
        | panicDiv => exact absurd hgs hne
        | found k' =>
          exact ⟨name, k', shHd, rfl, by simp, (hiff k').mp hgs⟩
        | noMatch =>
          have : out ∈ tl := by
            rcases List.mem_cons.mp hmem with heq | hmem'
            · exfalso
              rw [heq] at hsh'
              simp only [hsh] at hsh'
              cases hsh'
              exact absurd ((hiff k).mpr hq) (by rw [hgs]; simp)
            · exact hmem'
          obtain ⟨name', k', sh'', hres, hmem'', hq''⟩ :=
            ih'.2 ⟨out, this, sh, k, hsh', hq⟩
          exact ⟨name', k', sh'', hres, List.mem_cons_of_mem _ hmem'', hq''⟩

/-- Claim C4, counterexample: on a model whose input shape has a zero
spatial extent (`[1,3,0,0]`, as declared by graphs with dynamic axes) and a
single non-matching output `[1,3,5,5]`, the claim requires the
"no suitable output" error, but `get_scale_factor` divides `5 / 0` and the
code panics instead. -/
theorem output_selection_div_zero_panic :
    get_matching_output [("out", some [1, 3, 5, 5])] [1, 3, 0, 0] .NCHW = .panicDiv ∧
      MatchOutcome.panicDiv ≠ .err ∧
      ∀ k, ¬ QualifiesSpec [1, 3, 0, 0] [1, 3, 5, 5] .NCHW k := by
  refine ⟨by decide, by simp, ?_⟩
  rintro k ⟨-, -, iw, ow, ih, oh, hiw, how, -, -, hko, -⟩
  rw [show ModelChannelOrder.get_width .NCHW [1, 3, 0, 0] = some 0 from by decide] at hiw
  rw [show ModelChannelOrder.get_width .NCHW [1, 3, 5, 5] = some 5 from by decide] at how
  have hiw0 : iw = 0 := (Option.some.inj hiw).symm
  have how5 : ow = 5 := (Option.some.inj how).symm
  rw [how5, hiw0, Nat.mul_zero] at hko
  exact absurd hko (by norm_num)

/-- Claim C4, amended: provided the input's two spatial extents are nonzero,
`get_matching_output` prefers an output whose shape exactly equals the input
shape (scale 1, even when an integer-multiple output also exists); otherwise
it returns some listed output whose batch and channel counts match the input
and whose spatial axes are a common integer multiple `k` of the input's,
with scale `k`; and when no output qualifies it fails with the
"no suitable output" error. -/
theorem output_selection_spec (outputs : List GraphOutput) (input_shape : TensorShape)
    (o : ModelChannelOrder) (iw ih : ℕ)
    (hiw : o.get_width input_shape = some iw) (hw : 0 < iw)
    (hih : o.get_height input_shape = some ih) (hh : 0 < ih) :
    ((∃ out ∈ outputs, out.2 = some input_shape) →
        ∃ name, get_matching_output outputs input_shape o = .ok name 1 ∧
          (name, some input_shape) ∈ outputs) ∧
      ((¬ ∃ out ∈ outputs, out.2 = some input_shape) →
        (∃ out ∈ outputs, ∃ sh k, out.2 = some sh ∧ QualifiesSpec input_shape sh o k) →
        ∃ name k sh, get_matching_output outputs input_shape o = .ok name k ∧
          (name, some sh) ∈ outputs ∧ QualifiesSpec input_shape sh o k) ∧
      ((¬ ∃ out ∈ outputs, out.2 = some input_shape) →
        (∀ out ∈ outputs, ∀ sh, out.2 = some sh →
          ∀ k, ¬ QualifiesSpec input_shape sh o k) →
        get_matching_output outputs input_shape o = .err) := by
  unfold get_matching_output
  cases hfind : outputs.find? (fun out => out.2 = some input_shape) with
  | some out =>
    have hmem := List.mem_of_find?_eq_some hfind
    have hprop := List.find?_some hfind
    simp only [decide_eq_true_eq] at hprop
    refine ⟨fun _ => ⟨out.1, rfl, ?_⟩, fun hno _ => absurd ⟨out, hmem, hprop⟩ hno,
      fun hno _ => absurd ⟨out, hmem, hprop⟩ hno⟩
    rw [← hprop]
    simpa using hmem
  | none =>
    have hnone : ∀ out ∈ outputs, ¬ (out.2 = some input_shape) := by
      intro out hmem
      have := List.find?_eq_none.mp hfind out hmem
      simpa using this
    refine ⟨?_, fun _ hex => ?_, fun _ hall => ?_⟩
    · rintro ⟨out, hmem, hsh⟩
      exact absurd hsh (hnone out hmem)
    · exact (searchScaled_spec input_shape o iw ih hiw hw hih hh outputs).2 hex
    · exact (searchScaled_spec input_shape o iw ih hiw hw hih hh outputs).1 hall

/-- Claim C4, witness: for input `[1,3,4,4]` with outputs
`("a", [1,3,8,8])` (a 2× multiple) and `("b", [1,3,4,4])` (exact), the exact
match `"b"` is chosen with scale 1 even though `"a"` qualifies with scale 2. -/
theorem output_selection_spec_witness :
    get_matching_output [("a", some [1, 3, 8, 8]), ("b", some [1, 3, 4, 4])]
        [1, 3, 4, 4] .NCHW = .ok "b" 1 ∧
      QualifiesSpec [1, 3, 4, 4] [1, 3, 8, 8] .NCHW 2 := by
  obtain ⟨name, hres, hmem⟩ :=
    (output_selection_spec [("a", some [1, 3, 8, 8]), ("b", some [1, 3, 4, 4])]
        [1, 3, 4, 4] .NCHW 4 4 rfl (by norm_num) rfl (by norm_num)).1
      ⟨("b", some [1, 3, 4, 4]), by simp, rfl⟩
  rcases List.mem_cons.mp hmem with heq | hmem2
  · have hsnd := congrArg Prod.snd heq
    simp at hsnd
  · have hname : name = "b" := congrArg Prod.fst (List.mem_singleton.mp hmem2)
    exact ⟨hname ▸ hres, rfl, rfl, 4, 8, 4, 8, rfl, rfl, rfl, rfl, by norm_num, by norm_num⟩

/-! ## Claim C6 — textual value-range parsing -/

/-- For a decidably true left conjunct, deciding `A ∧ b` is just `b`. -/
theorem decide_and_right {A : Prop} [Decidable A] (hA : A) (b : Bool) :
    decide (A ∧ b = true) = b := by
  cases b
  · simp
  · simp [hA]

/-- The exponent acceptor matches exactly the successes of `applyExp`. -/
theorem applyExp_isSome (m : ℚ) (r : List Char) :
    (applyExp m r).isSome = expTokOpt r := by
  cases r with
  | nil => rfl
  | cons c t =>
    unfold applyExp expTokOpt
    dsimp only
    by_cases h : (c = 'e' ∨ c = 'E') ∧ (stripSign t).2 ≠ [] ∧
        (stripSign t).2.all isDigitChar = true
    · rw [if_pos h, decide_eq_true h]
      rfl
    · rw [if_neg h, decide_eq_false h]
      rfl

/-- The number acceptor of the documented grammar matches exactly the
successes of the value-computing number parser. -/
theorem parseNumber_isSome (l : List Char) :
    (parseNumber l).isSome = numberTok l := by
  unfold parseNumber numberTok
  cases hrest : l.dropWhile isDigitChar with
  | nil =>
    dsimp only
    split_ifs with h
    · simp [h]
    · simp [h]
  | cons c t =>
    dsimp only
    by_cases hc : c = '.'
    · rw [if_pos hc, if_pos hc]
      by_cases hemp : l.takeWhile isDigitChar = [] ∧ t.takeWhile isDigitChar = []
      · rw [if_pos hemp]
        simp [hemp.1, hemp.2]
      · rw [if_neg hemp]
        rw [applyExp_isSome]
        have hA : l.takeWhile isDigitChar ≠ [] ∨ t.takeWhile isDigitChar ≠ [] := by
          tauto
        rw [decide_and_right hA]
    · rw [if_neg hc, if_neg hc]
      by_cases hip : l.takeWhile isDigitChar = []
      · rw [if_pos hip]
        simp [hip]
      · rw [if_neg hip]
        rw [applyExp_isSome]
        rw [decide_and_right hip]

/-- The float-literal acceptor of the documented grammar matches exactly the
successes of `parseFloatVal`. -/
theorem parseFloatVal_isSome (l : List Char) :
    (parseFloatVal l).isSome = validFloatTok l := by
  unfold parseFloatVal validFloatTok
  by_cases h1 : (stripSign l).2.map lowerAscii = "inf".data ∨
      (stripSign l).2.map lowerAscii = "infinity".data
  · rw [if_pos h1]
    rcases h1 with h | h <;> simp [h]
  · rw [if_neg h1]
    rw [not_or] at h1
    by_cases h2 : (stripSign l).2.map lowerAscii = "nan".data
    · rw [if_pos h2]
      simp [h2]
    · rw [if_neg h2]
      simp [Option.isSome_map', parseNumber_isSome, h1.1, h1.2, h2]

/-- Rust `starts_with("+-")` holds exactly on lists beginning `'+' :: '-'`. -/
theorem startsWithPlusMinus_iff (l : List Char) :
    startsWithPlusMinus l = true ↔ ∃ t, l = '+' :: '-' :: t := by
  rcases l with _ | ⟨a, _ | ⟨b, t⟩⟩
  · simp [startsWithPlusMinus]
  · simp [startsWithPlusMinus]
  · constructor
    · intro h
      simp only [startsWithPlusMinus, decide_eq_true_eq] at h
      exact ⟨t, by rw [h.1, h.2]⟩
    · rintro ⟨t', ht⟩
      cases ht
      simp [startsWithPlusMinus]

/-- Claim C6, counterexample: the claim says parsing fails exactly when the
bound substring is not a valid non-negative float, but Rust's float parser
accepts signed literals: `"-10"` is not a non-negative float yet parsing
succeeds, yielding an asymmetric range with the negative bound −10. -/
theorem from_str_negative_accepted :
    ModelValueRangeF.from_str "-10" = some ⟨.Asymmetric, .finite (-10)⟩ ∧
      (-10 : ℚ) < 0 := by
  constructor
  · decide
  · norm_num

/-- Claim C6: a leading `"+-"` yields a symmetric range with the bound parsed
from the remaining substring, any other string an asymmetric range from the
whole string, and parsing fails exactly when the bound substring is not a
valid float literal of the `f32` grammar (signs — including a negative
bound — and `inf`/`nan` forms included); `"+-10"` gives symmetric(10),
`"10"` gives asymmetric(10), `"abc"` fails. -/
theorem from_str_spec :
    (∀ s : String,
        (ModelValueRangeF.from_str s).isSome = validFloatTok (boundSubstring s)) ∧
      (∀ (s : String) (r : ModelValueRangeF), ModelValueRangeF.from_str s = some r →
        (r.value_mode = .Symmetric ↔ ∃ t, s.data = '+' :: '-' :: t)) ∧
      ModelValueRangeF.from_str "+-10" = some ⟨.Symmetric, .finite 10⟩ ∧
      ModelValueRangeF.from_str "10" = some ⟨.Asymmetric, .finite 10⟩ ∧
      ModelValueRangeF.from_str "abc" = none := by
  refine ⟨fun s => ?_, fun s r hr => ?_, by decide, by decide, by decide⟩
  · unfold ModelValueRangeF.from_str boundSubstring
    split_ifs with hsw
    · rw [Option.isSome_map', parseFloatVal_isSome]
    · rw [Option.isSome_map', parseFloatVal_isSome]
  · unfold ModelValueRangeF.from_str at hr
    split_ifs at hr with hsw
    · rw [Option.map_eq_some'] at hr
      obtain ⟨m, -, hm⟩ := hr
      rw [← hm]
      simpa using (startsWithPlusMinus_iff s.data).mp hsw
    · rw [Option.map_eq_some'] at hr
      obtain ⟨m, -, hm⟩ := hr
      rw [← hm]
      constructor
      · intro habs
        cases habs
      · intro hex
        exact absurd ((startsWithPlusMinus_iff s.data).mpr hex) (by simpa using hsw)

/-- Claim C6, witness: the parsing characterisation applied at the concrete
strings `"+-10"` (symmetric, both through the grammar acceptor and the mode
law) and `"abc"` (grammar rejection). -/
theorem from_str_spec_witness :
    (ModelValueRangeF.from_str "+-10").isSome = true ∧
      ((⟨.Symmetric, .finite 10⟩ : ModelValueRangeF).value_mode = .Symmetric ↔
        ∃ t, "+-10".data = '+' :: '-' :: t) ∧
      (ModelValueRangeF.from_str "abc").isSome = false := by
  refine ⟨?_, from_str_spec.2.1 "+-10" ⟨.Symmetric, .finite 10⟩ from_str_spec.2.2.1, ?_⟩
  · rw [from_str_spec.1 "+-10"]
    decide
  · rw [from_str_spec.1 "abc"]
    decide

/-! ## Claim C7 — block averaging of upscaled outputs -/

/-- Sum of a mapped `List.range` as a `Finset.range` sum. -/
theorem list_range_map_sum (n : ℕ) (f : ℕ → ℚ) :
    ((List.range n).map f).sum = ∑ i ∈ Finset.range n, f i := by
  induction n with
  | zero => simp
  | succ n ih =>
    rw [List.range_succ, Finset.sum_range_succ, List.map_append, List.sum_append, ih]
    simp

/-- Lemma: `blockSum` only reads the `scale × scale` block, so grids agreeing there
have the same block sum. -/
theorem blockSum_congr (g₁ g₂ : Grid) (scale c y x : ℕ)
    (h : ∀ dy, dy < scale → ∀ dx, dx < scale →
      g₁ c (scale * y + dy) (scale * x + dx) = g₂ c (scale * y + dy) (scale * x + dx)) :
    blockSum g₁ scale c y x = blockSum g₂ scale c y x := by
  unfold blockSum
  congr 1
  refine List.map_congr_left fun dy hdy => ?_
  congr 1
  refine List.map_congr_left fun dx hdx => ?_
  exact h dy (List.mem_range.mp hdy) dx (List.mem_range.mp hdx)

/-- Inner `x`-loop characterisation: provided the current grid differs from
the pristine grid `g0` only at cells of earlier rows (or earlier channels) —
and because a block read at row `y` only touches rows `scale*y + dy ≥ y` and
columns `scale*x + dx ≥ x` — every cell written by the loop receives the mean
of the corresponding block of the PRISTINE grid, and no other cell changes. -/
theorem innerLoop_apply (scale c y : ℕ) (g g0 : Grid) (hs : 2 ≤ scale)
    (hmod : ∀ c' y' x', g c' y' x' ≠ g0 c' y' x' → c' < c ∨ (c' = c ∧ y' < y)) :
    ∀ n c' y' x',
      innerLoop scale c y g n c' y' x' =
        if c' = c ∧ y' = y ∧ x' < n then
          blockSum g0 scale c y x' / ((scale * scale : ℕ) : ℚ)
        else g c' y' x' := by
  intro n
  induction n with
  | zero =>
    intro c' y' x'
    simp [innerLoop]
  | succ n ih =>
    intro c' y' x'
    have h2y : 2 * y ≤ scale * y := Nat.mul_le_mul_right y hs
    have h2n : 2 * n ≤ scale * n := Nat.mul_le_mul_right n hs
    have hreads : ∀ dy, dy < scale → ∀ dx, dx < scale →
        innerLoop scale c y g n c (scale * y + dy) (scale * n + dx) =
          g0 c (scale * y + dy) (scale * n + dx) := by
      intro dy hdy dx hdx
      rw [ih c (scale * y + dy) (scale * n + dx),
        if_neg (by rintro ⟨-, -, hx⟩; omega)]
      by_contra hne
      rcases hmod c (scale * y + dy) (scale * n + dx) hne with hlt | ⟨-, hlt⟩
      · omega
      · omega
    show scaleStep scale (innerLoop scale c y g n) c y n c' y' x' = _
    unfold scaleStep updGrid
    by_cases heq : c' = c ∧ y' = y ∧ x' = n
    · rw [if_pos heq]
      obtain ⟨rfl, rfl, rfl⟩ := heq
      rw [if_pos ⟨rfl, rfl, Nat.lt_succ_self x'⟩]
      congr 1
      exact blockSum_congr _ _ _ _ _ _ hreads
    · rw [if_neg heq, ih c' y' x']
      by_cases hcond : c' = c ∧ y' = y ∧ x' < n
      · rw [if_pos hcond, if_pos ⟨hcond.1, hcond.2.1, by omega⟩]
      · rw [if_neg hcond, if_neg ?_]
        rintro ⟨h1, h2, h3⟩
        rcases Nat.lt_succ_iff_lt_or_eq.mp h3 with hlt | heqn
        · exact hcond ⟨h1, h2, hlt⟩
        · exact heq ⟨h1, h2, heqn⟩

/-- Row (`y`) loop characterisation. -/
theorem rowLoop_apply (scale c W' : ℕ) (g g0 : Grid) (hs : 2 ≤ scale)
    (hmod : ∀ c' y' x', g c' y' x' ≠ g0 c' y' x' → c' < c) :
    ∀ m c' y' x',
      rowLoop scale c W' g m c' y' x' =
        if c' = c ∧ y' < m ∧ x' < W' then
          blockSum g0 scale c y' x' / ((scale * scale : ℕ) : ℚ)
        else g c' y' x' := by
  intro m
  induction m with
  | zero =>
    intro c' y' x'
    simp [rowLoop]
  | succ m ih =>
    intro c' y' x'
    show innerLoop scale c m (rowLoop scale c W' g m) W' c' y' x' = _
    have hmod' : ∀ a b d, rowLoop scale c W' g m a b d ≠ g0 a b d →
        a < c ∨ (a = c ∧ b < m) := by
      intro a b d hne
      rw [ih a b d] at hne
      by_cases hcond : a = c ∧ b < m ∧ d < W'
      · exact Or.inr ⟨hcond.1, hcond.2.1⟩
      · rw [if_neg hcond] at hne
        exact Or.inl (hmod a b d hne)
    rw [innerLoop_apply scale c m (rowLoop scale c W' g m) g0 hs hmod' W' c' y' x']
    by_cases h1 : c' = c ∧ y' = m ∧ x' < W'
    · rw [if_pos h1, if_pos ⟨h1.1, by omega, h1.2.2⟩, h1.2.1]
    · rw [if_neg h1, ih c' y' x']
      by_cases h2 : c' = c ∧ y' < m ∧ x' < W'
      · rw [if_pos h2, if_pos ⟨h2.1, by omega, h2.2.2⟩]
      · rw [if_neg h2, if_neg ?_]
        rintro ⟨ha, hb, hd⟩
        rcases Nat.lt_succ_iff_lt_or_eq.mp hb with hlt | heqm
        · exact h2 ⟨ha, hlt, hd⟩
        · exact h1 ⟨ha, heqm, hd⟩

/-- Channel loop characterisation: starting from the pristine grid, every
cell in the `C × H/scale × W/scale` prefix receives the mean of its block of
the pristine grid, and every other cell keeps its original value. -/
theorem chanLoop_apply (scale H' W' : ℕ) (g0 : Grid) (hs : 2 ≤ scale) :
    ∀ k c' y' x',
      chanLoop scale H' W' g0 k c' y' x' =
        if c' < k ∧ y' < H' ∧ x' < W' then
          blockSum g0 scale c' y' x' / ((scale * scale : ℕ) : ℚ)
        else g0 c' y' x' := by
  intro k
  induction k with
  | zero =>
    intro c' y' x'
    simp [chanLoop]
  | succ k ih =>
    intro c' y' x'
    show rowLoop scale k W' (chanLoop scale H' W' g0 k) H' c' y' x' = _
    have hmod : ∀ a b d, chanLoop scale H' W' g0 k a b d ≠ g0 a b d → a < k := by
      intro a b d hne
      rw [ih a b d] at hne
      by_cases hcond : a < k ∧ b < H' ∧ d < W'
      · exact hcond.1
      · rw [if_neg hcond] at hne
        exact absurd rfl hne
    rw [rowLoop_apply scale k W' (chanLoop scale H' W' g0 k) g0 hs hmod H' c' y' x']
    by_cases h1 : c' = k ∧ y' < H' ∧ x' < W'
    · rw [if_pos h1, if_pos ⟨by omega, h1.2.1, h1.2.2⟩, h1.1]
    · rw [if_neg h1, ih c' y' x']
      by_cases h2 : c' < k ∧ y' < H' ∧ x' < W'
      · rw [if_pos h2, if_pos ⟨by omega, h2.2⟩]
      · rw [if_neg h2, if_neg ?_]
        rintro ⟨ha, hb, hd⟩
        rcases Nat.lt_succ_iff_lt_or_eq.mp ha with hlt | heqk
        · exact h2 ⟨hlt, hb, hd⟩
        · exact h1 ⟨heqk, hb, hd⟩

/-- Claim C7: when the detected model scale exceeds 1, `process_chunk`
block-averages the backend's CHW output: the returned tile has extents
`(C, H/scale, W/scale)` and its value at each `(c, y, x)` is the arithmetic
mean of the `scale × scale` block of the backend output at rows
`scale*y..scale*y+scale` and columns `scale*x..scale*x+scale`; in particular
the in-place overwriting of `scale_chunk` never reads an already-overwritten
element (every written value is a mean of ORIGINAL elements). -/
theorem process_chunk_block_average (C H W scale : ℕ) (g : Grid) (hs : 1 < scale) :
    (process_chunk_output C H W g scale).1 = (C, H / scale, W / scale) ∧
      ∀ c y x, c < C → y < H / scale → x < W / scale →
        (process_chunk_output C H W g scale).2 c y x =
          (∑ dy ∈ Finset.range scale, ∑ dx ∈ Finset.range scale,
            g c (scale * y + dy) (scale * x + dx)) / ((scale * scale : ℕ) : ℚ) := by
  unfold process_chunk_output
  rw [if_pos hs]
  unfold scale_chunk
  refine ⟨rfl, fun c y x hc hy hx => ?_⟩
  show chanLoop scale (H / scale) (W / scale) g C c y x = _
  rw [chanLoop_apply scale (H / scale) (W / scale) g hs C c y x, if_pos ⟨hc, hy, hx⟩]
  unfold blockSum
  rw [list_range_map_sum]
  congr 1

/-- Claim C7, witness: a single-channel 4×4 output with values `4*y + x`,
scale 2: the result has extents `(1, 2, 2)` and its cell `(0,0,0)` is the
mean `(0 + 1 + 4 + 5)/4 = 5/2` of the top-left 2×2 block. -/
theorem process_chunk_block_average_witness :
    (process_chunk_output 1 4 4 (fun _ y x => (4 * y + x : ℚ)) 2).1 = (1, 2, 2) ∧
      (process_chunk_output 1 4 4 (fun _ y x => (4 * y + x : ℚ)) 2).2 0 0 0 = 5 / 2 := by
  have h := process_chunk_block_average 1 4 4 2 (fun _ y x => (4 * y + x : ℚ)) (by norm_num)
  refine ⟨h.1, ?_⟩
  rw [h.2 0 0 0 (by norm_num) (by norm_num) (by norm_num)]
  norm_num [Finset.sum_range_succ]

/-! ## Claims C9 and C1 — the chunk iterator -/

/-- Every coordinate the raster scan emits satisfies `x = 0 ∨ x < W` and
`y < H`: `x` only ever advances by `step` while staying below `W` (resetting
to 0 otherwise), and emission requires `y < H`. -/
theorem emitFrom_bounds (W H step : ℕ) (hs : 0 < step) :
    ∀ x y, (x = 0 ∨ x < W) →
      ∀ p ∈ emitFrom W H step hs x y, (p.1 = 0 ∨ p.1 < W) ∧ p.2 < H := by
  intro x y
  induction x, y using emitFrom.induct W H step hs with
  | case1 x y hy ih2 ih1 =>
    intro hx p hp
    rw [emitFrom, dif_pos hy] at hp
    rcases List.mem_cons.mp hp with rfl | hp'
    · exact ⟨hx, hy⟩
    · by_cases hge : W ≤ x + step
      · rw [if_pos hge] at hp'
        exact ih2 (Or.inl rfl) p hp'
      · rw [if_neg hge] at hp'
        exact ih1 hge (Or.inr (by omega)) p hp'
  | case2 x y hy =>
    intro hx p hp
    rw [emitFrom, dif_neg hy] at hp
    cases hp

/-- Inversion of a successful `finalize`: the field values of the finalized
generator and the validated configuration bounds. -/
theorem finalize_fields (b : ImageChunkGeneratorBuilder)
    (f : FinalizedImageChunkGenerator) (hf : finalize b = .ok f) :
    f.chunksize = b.chunksize ∧ f.overlap = b.overlap ∧
      f.chunk_padding = b.chunk_padding ∧
      f.input_image_resolution = (b.width, b.height) ∧
      f.input_image_padding = (b.chunksize, b.chunksize) ∧
      f.padded_width = b.width + 2 * b.chunksize ∧
      f.padded_height = b.height + 2 * b.chunksize ∧
      2 * b.chunk_padding < b.chunksize ∧
      2 * b.overlap ≤ b.chunksize - 2 * b.chunk_padding := by
  unfold finalize at hf
  split_ifs at hf with h1 h2
  all_goals cases hf
  exact ⟨rfl, rfl, rfl, rfl, rfl, rfl, rfl, by omega, by omega⟩

/-- Claim C9: for every finalized generator, every chunk the iterator emits
is a fully in-bounds `chunksize × chunksize` view of the padded tensor: at
every emitted cursor `(x, y)`, the slice origin
`x + input_padding - chunk_padding` does not underflow and the origin plus
`chunksize` stays within the padded extents (original extent plus
`2 * chunksize`), on both axes — so iteration never fails. -/
theorem chunk_slices_in_bounds (b : ImageChunkGeneratorBuilder)
    (f : FinalizedImageChunkGenerator) (hf : finalize b = .ok f)
    (hs : 0 < f.chunksize - 2 * f.chunk_padding - f.overlap) :
    ∀ p ∈ chunkCoords f hs,
      f.chunk_padding ≤ p.1 + f.input_image_padding.1 ∧
        f.chunk_padding ≤ p.2 + f.input_image_padding.2 ∧
        (p.1 + f.input_image_padding.1 - f.chunk_padding) + f.chunksize ≤ f.padded_width ∧
        (p.2 + f.input_image_padding.2 - f.chunk_padding) + f.chunksize ≤ f.padded_height := by
  obtain ⟨hc, ho, hcp, hres, hpad, hpw, hph, hlt, hle⟩ := finalize_fields b f hf
  intro p hp
  have hb := emitFrom_bounds f.input_image_resolution.1 f.input_image_resolution.2
    (f.chunksize - 2 * f.chunk_padding - f.overlap) hs 0 0 (Or.inl rfl) p hp
  rw [hres] at hb
  obtain ⟨hx, hy⟩ := hb
  dsimp only at hx hy
  rw [hpad, hpw, hph, hc, hcp]
  dsimp only
  refine ⟨by omega, by omega, by omega, by omega⟩

/-- The concrete raster scan of `demoBuilder`'s generator: a 6×6 image with
usable tile size 6 and step 4 emits tiles at 0 and 4 on each axis — the
positions at 4 are redundant (the tile at 0 already reaches the edge). -/
theorem emitFrom_demo (hs' : 0 < 4) :
    emitFrom 6 6 4 hs' 0 0 = [(0, 0), (4, 0), (0, 4), (4, 4)] := by
  rw [emitFrom]
  norm_num
  rw [emitFrom]
  norm_num
  rw [emitFrom]
  norm_num
  rw [emitFrom]
  norm_num
  rw [emitFrom]
  norm_num

/-- Claim C9, witness: the slice-bounds theorem applied to `demoBuilder` and
the emitted cursor `(4, 4)`. -/
theorem chunk_slices_in_bounds_witness :
    demoFinalized.chunk_padding ≤ 4 + demoFinalized.input_image_padding.1 ∧
      demoFinalized.chunk_padding ≤ 4 + demoFinalized.input_image_padding.2 ∧
      (4 + demoFinalized.input_image_padding.1 - demoFinalized.chunk_padding) +
          demoFinalized.chunksize ≤ demoFinalized.padded_width ∧
      (4 + demoFinalized.input_image_padding.2 - demoFinalized.chunk_padding) +
          demoFinalized.chunksize ≤ demoFinalized.padded_height := by
  have h := chunk_slices_in_bounds demoBuilder demoFinalized rfl (by decide)
    (4, 4) ?_
  · exact h
  · show (4, 4) ∈ emitFrom 6 6 4 (by decide) 0 0
    rw [emitFrom_demo]
    decide

/-- Claim C1: the seam-blend weights do NOT sum to 1 for every accepted
configuration and image at least one usable tile in size.  With chunksize
10, chunk_padding 2, overlap 2 (accepted by `finalize`, usable tile size 6,
step 4) on a 6×6 image (resolution equal to one usable tile), pixel `(5, 5)`
receives total weight `9/4`: the iterator also emits tiles at 4 on each
axis, whose usable regions are halved only on their leading bands, while the
tile at 0 is not trailing-halved because `0 + 6 < 6` fails — so
contributions `1 + 1/2 + 1/2 + 1/4` accumulate instead of 1. -/
theorem seam_weight_nine_quarters :
    (10 - 2 * 2 ≤ 6) ∧
      (∃ f, finalize demoBuilder = .ok f) ∧
      totalWeight 10 2 2 6 6 (by norm_num) 5 5 = 9 / 4 ∧
      (9 / 4 : ℚ) ≠ 1 := by
  refine ⟨by norm_num, ⟨demoFinalized, rfl⟩, ?_, by norm_num⟩
  show ((emitFrom 6 6 4 (by norm_num) 0 0).map
    (fun gc => tileWeight (10 - 2 * 2) 2 6 6 gc.1 gc.2 5 5)).sum = 9 / 4
  rw [emitFrom_demo]
  norm_num [tileWeight, overlapFactor, usableExtent]

end NeuraTable
